import Mathlib

/-!
Shallow embedding of the attendance/deduction state engine of `4.py`
(a Telegram attendance bot).  The transport layer (telegram API, message
formatting, the `/start` and `/admins` commands, persistence writes) is
excluded; the embedded core is: session/window classification, the
per-group attendance ledger, the per-group salary-deduction ledger, and
the dispatch of the eight text commands of `handle_message`.

Modelling conventions:
* Times-of-day (`datetime.time`) are seconds since midnight (`Nat`);
  comparison of `dtime(h, m, s)` values is the numeric comparison of
  their second counts, which the kernel evaluates directly.
* Python dicts (which iterate in insertion order) are association lists;
  `dict.setdefault` / key insertion appends at the end.
* Monetary amounts are `Int` (Python ints); `max(0, x)` is `max 0 x`.
* A missing/`None` display name is the empty string, matching Python
  truthiness of `""`/`None` in `username or "unknown"`.
* The wall clock (`datetime.now()`) is an explicit input: each inbound
  message carries the date string and the time-of-day the source would
  have read from the clock.
-/

/-- `ADMIN_IDS` of `4.py` line 14. -/
def ADMIN_IDS : List Nat :=
  [7958117532, 7432006334, 8382453545, 5752123952, 7435176780, 7938235371,
   6076562401, 8380524265, 1596100597, 7889757304, 6003851152, 6826941532,
   7488322832]

/-- `datetime.time(h, m, s)` as seconds since midnight. -/
def dtimeSecs (h m s : Nat) : Nat := h * 3600 + m * 60 + s

/-- `MORNING_START = dtime(10, 0, 0)`. -/
def MORNING_START : Nat := dtimeSecs 10 0 0
/-- `MORNING_END = dtime(10, 30, 0)`. -/
def MORNING_END : Nat := dtimeSecs 10 30 0
/-- `EVENING_START = dtime(16, 30, 0)`. -/
def EVENING_START : Nat := dtimeSecs 16 30 0
/-- `EVENING_END = dtime(17, 0, 0)`. -/
def EVENING_END : Nat := dtimeSecs 17 0 0
/-- `LATE_PENALTY = 50`. -/
def LATE_PENALTY : Int := 50

/-- The two attendance sessions. -/
inductive Session
  | morning
  | evening
deriving Repr, DecidableEq

/-- `current_session()` of `4.py` lines 55-59, with the clock's
time-of-day made an explicit argument. -/
def current_session (t : Nat) : Session :=
  if t < dtimeSecs 13 0 0 then Session.morning else Session.evening

/-- `is_within_window(dt)` of `4.py` lines 61-67. -/
def is_within_window (t : Nat) : Bool :=
  if MORNING_START ≤ t ∧ t ≤ MORNING_END then true
  else if EVENING_START ≤ t ∧ t ≤ EVENING_END then true
  else false

/-- One element of a salary record's `history` list:
`{"date": ..., "amount": ..., "reason": ...}`. -/
structure DeductionEvent where
  date : String
  amount : Int
  reason : String
deriving Repr, DecidableEq

/-- One value of `salary_data[group]`:
`{"username": ..., "deductions": ..., "history": [...]}`. -/
structure SalaryRecord where
  username : String
  deductions : Int
  history : List DeductionEvent
deriving Repr, DecidableEq

/-- `salary_data[group]`: a user-id-keyed dict in insertion order.  The
source keys by `str(uid)` and converts back with `int`; since every key
it ever writes is `str` of an int, keying by the numeric id directly is
faithful. -/
abbrev GroupSalary := List (Nat × SalaryRecord)

/-- Dict lookup in `salary_data[group]`. -/
def lookupSal (g : GroupSalary) (uid : Nat) : Option SalaryRecord :=
  (g.find? (fun p => p.1 == uid)).map Prod.snd

/-- `ensure_user_salary(group_salary, uid, username)` of `4.py`
lines 69-76: create `{"username": username or "unknown", "deductions": 0,
"history": []}` when absent; otherwise backfill an empty username from a
non-empty argument. -/
def ensure_user_salary (g : GroupSalary) (uid : Nat) (username : String) :
    GroupSalary :=
  match lookupSal g uid with
  | none =>
      g ++ [(uid, ⟨if username = "" then "unknown" else username, 0, []⟩)]
  | some _ =>
      if username ≠ "" then
        g.map (fun p =>
          if p.1 = uid ∧ p.2.username = "" then
            (p.1, { p.2 with username := username })
          else p)
      else g

/-- The deduction-application step the source inlines twice
(`4.py` lines 161-162 for `"late"`, lines 252-253 for `"missing"`):
increment `deductions` and append a history event, at the given key. -/
def add_deduction (g : GroupSalary) (uid : Nat) (date : String)
    (amount : Int) (reason : String) : GroupSalary :=
  g.map (fun p =>
    if p.1 = uid then
      (p.1, { p.2 with
                deductions := p.2.deductions + amount,
                history := p.2.history ++ [⟨date, amount, reason⟩] })
    else p)

/-- One element of `attendance_data[group][date][session]`. -/
structure AttendanceEntry where
  user_id : Nat
  username : String
  date : String
  time : Nat
  late : Bool
  session : Session
deriving Repr, DecidableEq

/-- `attendance_data[group][date]`: the two session lists. -/
structure DayRecord where
  morning : List AttendanceEntry
  evening : List AttendanceEntry
deriving Repr, DecidableEq

/-- The session list of a day record (`day_rec[session]`). -/
def DayRecord.sess (d : DayRecord) : Session → List AttendanceEntry
  | Session.morning => d.morning
  | Session.evening => d.evening

/-- Replace the session list of a day record. -/
def DayRecord.setSess (d : DayRecord) : Session → List AttendanceEntry → DayRecord
  | Session.morning, l => { d with morning := l }
  | Session.evening, l => { d with evening := l }

/-- `attendance_data[group]`: a date-keyed dict in insertion order. -/
abbrev GroupAttendance := List (String × DayRecord)

/-- Dict lookup in `attendance_data[group]`. -/
def lookupDay (att : GroupAttendance) (date : String) : Option DayRecord :=
  (att.find? (fun p => p.1 == date)).map Prod.snd

/-- `group_attendance[date]` after `ensure_day_structure` has run:
absent dates read as the empty day. -/
def getDay (att : GroupAttendance) (date : String) : DayRecord :=
  (lookupDay att date).getD ⟨[], []⟩

/-- `ensure_day_structure(group_attendance, date)` of `4.py` lines 78-85.
In the typed model a stored `DayRecord` always has both session lists, so
the `isinstance` re-coercion branches of the source are identities; only
the creation of a missing date is observable. -/
def ensure_day_structure (att : GroupAttendance) (date : String) :
    GroupAttendance :=
  match lookupDay att date with
  | none => att ++ [(date, ⟨[], []⟩)]
  | some _ => att

/-- Append a freshly created attendance entry to
`attendance_data[group][date][session]` (`day_rec[session].append(entry)`,
`4.py` line 167). -/
def appendEntry (att : GroupAttendance) (date : String) (s : Session)
    (e : AttendanceEntry) : GroupAttendance :=
  att.map (fun p =>
    if p.1 = date then (p.1, p.2.setSess s (p.2.sess s ++ [e])) else p)

/-- All `(user_id, username)` pairs of every entry of every day of the
group, days in dict order, morning before evening (`4.py` lines 231-235). -/
def att_pairs (att : GroupAttendance) : List (Nat × String) :=
  (att.map (fun p =>
    (p.2.morning ++ p.2.evening).map (fun e => (e.user_id, e.username)))).flatten

/-- Models `list({...})` over the collected pairs (`4.py` line 236): each
distinct `(user_id, username)` pair is kept exactly once.  CPython
iterates a set in an unspecified, hash-dependent order; the model fixes
first-occurrence order.  Membership and the one-copy-per-distinct-pair
guarantee are faithful to the source; the order is not specified by it. -/
def dedup_pairs (l : List (Nat × String)) : List (Nat × String) :=
  l.foldl (fun acc p => if p ∈ acc then acc else acc ++ [p]) []

/-- The known-members list of the missing sweep (`4.py` lines 226-236):
the salary ledger's users when that dict is non-empty, otherwise the
deduplicated attendance pairs. -/
def known_members (sal : GroupSalary) (att : GroupAttendance) :
    List (Nat × String) :=
  match sal with
  | [] => dedup_pairs (att_pairs att)
  | _ :: _ => sal.map (fun p => (p.1, p.2.username))

/-- `marked_ids` of the sweep (`4.py` line 242): the user ids of today's
entries for the session (the source builds a set; only membership is
used). -/
def marked_ids (day : DayRecord) (s : Session) : List Nat :=
  (day.sess s).map AttendanceEntry.user_id

/-- `missing` of the sweep (`4.py` line 243). -/
def missing_list (sal : GroupSalary) (att : GroupAttendance)
    (date : String) (s : Session) : List (Nat × String) :=
  (known_members sal att).filter (fun p =>
    !((marked_ids (getDay att date) s).contains p.1)
      && !(ADMIN_IDS.contains p.1))

/-- The penalty loop of the sweep (`4.py` lines 250-253): for each missing
pair, ensure a salary record then apply a `"missing"` deduction of
`LATE_PENALTY`. -/
def sweep_deduct (sal : GroupSalary) (missing : List (Nat × String))
    (today : String) : GroupSalary :=
  missing.foldl
    (fun g p =>
      add_deduction (ensure_user_salary g p.1 p.2) p.1 today LATE_PENALTY
        "missing")
    sal

/-- The predicate of command 7's removal filter (`4.py` line 272): an
event dated today with reason `"missing"`. -/
def matches_missing (today : String) (h : DeductionEvent) : Bool :=
  h.date == today && h.reason == "missing"

/-- The per-record body of command 7's loop (`4.py` lines 270-278):
the updated record and, when at least one event matched, the report line
`(username, amount_removed)`. -/
def retract_rec (today : String) (rec : SalaryRecord) :
    SalaryRecord × Option (String × Int) :=
  let to_remove := rec.history.filter (matches_missing today)
  if to_remove.isEmpty then (rec, none)
  else
    let amount := (to_remove.map DeductionEvent.amount).sum
    ({ rec with
        deductions := max 0 (rec.deductions - amount),
        history := rec.history.filter (fun h => !(matches_missing today h)) },
     some (rec.username, amount))

/-- Command 7 over the whole group dict (`4.py` lines 269-278): every
record is rewritten by `retract_rec`; the report collects the non-`none`
lines in dict order. -/
def retract_missing (sal : GroupSalary) (today : String) :
    GroupSalary × List (String × Int) :=
  (sal.map (fun p => (p.1, (retract_rec today p.2).1)),
   sal.filterMap (fun p => (retract_rec today p.2).2))

/-- Command 5 (`4.py` lines 212-214): zero every record. -/
def clear_all (sal : GroupSalary) : GroupSalary :=
  sal.map (fun p => (p.1, { p.2 with deductions := 0, history := [] }))

/-- One inbound text message, reduced to what `handle_message` reads from
it: the sender's id, the sender's display name (`user.username or
user.first_name`, `""` when neither exists), `today_str()`, the clock's
time-of-day, and the message text. -/
structure MsgInput where
  uid : Nat
  username : String
  date : String
  time : Nat
  text : String
deriving Repr, DecidableEq

/-- The state of one group: `attendance_data[group]` and
`salary_data[group]`.  Groups are independent in the source (every
operation touches exactly one group's two dicts), so the model is
per-group. -/
structure GroupState where
  att : GroupAttendance
  sal : GroupSalary
deriving Repr, DecidableEq

/-- A group that has never been touched. -/
def initialState : GroupState := ⟨[], []⟩

/-- The structured outcome of one message, abstracting the reply texts of
`handle_message`. -/
inductive Outcome
  | markedAlready
  | marked (late : Bool)
  | countIs (n : Nat)
  | listing (morning evening : List AttendanceEntry)
  | permissionDenied
  | noDeductions
  | deductionsShown (total : Int)
  | clearedDeductions
  | noKnownMembers
  | everyoneMarked
  | swept (missing : List (Nat × String))
  | nothingToClear
  | retracted (cleared : List (String × Int))
  | attendanceCleared
  | ignored
deriving Repr, DecidableEq

/-- The unconditional structure-ensuring prefix of `handle_message`
(`4.py` lines 130-138): runs before any command is dispatched, for every
message. -/
def ensure_structures (st : GroupState) (inp : MsgInput) : GroupState :=
  ⟨ensure_day_structure st.att inp.date,
   ensure_user_salary st.sal inp.uid inp.username⟩

/-- The command dispatch of `handle_message` (`4.py` lines 140-304),
applied to the already-ensured state. -/
def dispatch (st : GroupState) (inp : MsgInput) : GroupState × Outcome :=
  let date := inp.date
  let session := current_session inp.time
  let day_rec := getDay st.att date
  let isAdmin := ADMIN_IDS.contains inp.uid
  if inp.text = "1" then
    if (day_rec.sess session).any (fun e => e.user_id == inp.uid) then
      (st, Outcome.markedAlready)
    else
      let late := if isAdmin then false else !(is_within_window inp.time)
      let entry : AttendanceEntry :=
        ⟨inp.uid, inp.username, date, inp.time, late, session⟩
      let sal2 :=
        if isAdmin then st.sal
        else if is_within_window inp.time then st.sal
        else add_deduction st.sal inp.uid date LATE_PENALTY "late"
      (⟨appendEntry st.att date session entry, sal2⟩, Outcome.marked late)
  else if inp.text = "2" then
    (st, Outcome.countIs (day_rec.morning.length + day_rec.evening.length))
  else if inp.text = "3" then
    (st, Outcome.listing day_rec.morning day_rec.evening)
  else if inp.text = "4" then
    if !isAdmin then (st, Outcome.permissionDenied)
    else if st.sal.isEmpty then (st, Outcome.noDeductions)
    else
      (st, Outcome.deductionsShown
        ((st.sal.map (fun p => p.2.deductions)).sum))
  else if inp.text = "5" then
    if !isAdmin then (st, Outcome.permissionDenied)
    else (⟨st.att, clear_all st.sal⟩, Outcome.clearedDeductions)
  else if inp.text = "6" then
    if !isAdmin then (st, Outcome.permissionDenied)
    else
      let members := known_members st.sal st.att
      if members.isEmpty then (st, Outcome.noKnownMembers)
      else
        let missing := missing_list st.sal st.att date session
        if missing.isEmpty then (st, Outcome.everyoneMarked)
        else
          (⟨st.att, sweep_deduct st.sal missing date⟩, Outcome.swept missing)
  else if inp.text = "7" then
    if !isAdmin then (st, Outcome.permissionDenied)
    else
      let res := retract_missing st.sal date
      if res.2.isEmpty then (⟨st.att, res.1⟩, Outcome.nothingToClear)
      else (⟨st.att, res.1⟩, Outcome.retracted res.2)
  else if inp.text = "0" then
    if !isAdmin then (st, Outcome.permissionDenied)
    else (⟨[], st.sal⟩, Outcome.attendanceCleared)
  else (st, Outcome.ignored)

/-- `handle_message` (`4.py` lines 118-304): ensure the group/day/user
structures, then dispatch on the message text. -/
def handle_message (st : GroupState) (inp : MsgInput) : GroupState × Outcome :=
  dispatch (ensure_structures st inp) inp

/-- Process a sequence of inbound messages, keeping the state. -/
def process_all (st : GroupState) (msgs : List MsgInput) : GroupState :=
  msgs.foldl (fun s m => (handle_message s m).1) st

/-- C8: window boundaries are inclusive — a check-in exactly at
10:00:00, 10:30:00, 16:30:00 or 17:00:00 is on-time, while 10:30:01 and
17:00:01 are late. -/
theorem window_boundaries_inclusive :
    is_within_window (dtimeSecs 10 0 0) = true ∧
    is_within_window (dtimeSecs 10 30 0) = true ∧
    is_within_window (dtimeSecs 16 30 0) = true ∧
    is_within_window (dtimeSecs 17 0 0) = true ∧
    is_within_window (dtimeSecs 10 30 1) = false ∧
    is_within_window (dtimeSecs 17 0 1) = false := by
  decide

/-- A JSON value, as `json.load` would return it (`4.py` lines 27-38).
Numbers are modelled as integers; the two stores only ever hold ints. -/
inductive Json
  | null
  | bool (b : Bool)
  | num (n : Int)
  | str (s : String)
  | arr (l : List Json)
  | obj (l : List (String × Json))

/-- Python truthiness of a parsed JSON value, as tested by
`json.load(f) or {}` (`4.py` line 32). -/
def truthy : Json → Bool
  | Json.null => false
  | Json.bool b => b
  | Json.num n => n != 0
  | Json.str s => !(s == "")
  | Json.arr l => !l.isEmpty
  | Json.obj l => !l.isEmpty

/-- What the file system holds at a store's path: no file, a file that
`open`/`json.load` raises on, or a file parsing to a value. -/
inductive StoredFile
  | absent
  | unparsable
  | parsed (v : Json)

/-- `load_json(path)` of `4.py` lines 27-38, over the modelled file
state.  Returns the loaded value and whether the file was renamed aside
to `path + ".bak"` (the source attempts the rename and swallows a rename
failure; the model's flag records that the rename was attempted). -/
def load_json : StoredFile → Json × Bool
  | StoredFile.absent => (Json.obj [], false)
  | StoredFile.unparsable => (Json.obj [], true)
  | StoredFile.parsed v => (if truthy v then v else Json.obj [], false)

example : (load_json (StoredFile.parsed Json.null)).1 = Json.obj [] := rfl
example : (load_json (StoredFile.parsed Json.null)).2 = false := rfl

/-- C9 counterexample: a readable store whose JSON parses to `null` is
not returned as its parsed contents — `json.load(f) or {}` substitutes
the empty dict — and the file is not quarantined either. -/
theorem load_json_falsy_not_returned :
    (load_json (StoredFile.parsed Json.null)).1 = Json.obj [] ∧
    Json.obj ([] : List (String × Json)) ≠ Json.null ∧
    (load_json (StoredFile.parsed Json.null)).2 = false :=
  ⟨rfl, fun h => Json.noConfusion h, rfl⟩

/-- C9 (amended): load never fails — a missing store yields the empty
state, an unparsable store is renamed aside and yields the empty state,
a store parsing to a truthy value is returned as parsed, and a store
parsing to a falsy value (null, false, 0, empty string/array/object)
yields the empty state without being renamed aside. -/
theorem load_json_total_recovery :
    (load_json StoredFile.absent = (Json.obj [], false)) ∧
    (load_json StoredFile.unparsable = (Json.obj [], true)) ∧
    (∀ v, truthy v = true → load_json (StoredFile.parsed v) = (v, false)) ∧
    (∀ v, truthy v = false →
      load_json (StoredFile.parsed v) = (Json.obj [], false)) := by
  refine ⟨rfl, rfl, ?_, ?_⟩ <;> intro v h <;> simp [load_json, h]

/-- The salary ledger of the C6 scenario: known members A=1, B=2, C=3. -/
def c6sal : GroupSalary :=
  [(1, ⟨"a", 0, []⟩), (2, ⟨"b", 0, []⟩), (3, ⟨"c", 0, []⟩)]

/-- The attendance ledger of the C6 scenario: only A marked the morning
session of 2025-01-01. -/
def c6att : GroupAttendance :=
  [("2025-01-01",
    ⟨[⟨1, "a", "2025-01-01", dtimeSecs 10 5 0, false, Session.morning⟩], []⟩)]

/-- The C6 sweep message: an admin sends "6" at 11:00 on 2025-01-01. -/
def c6msg : MsgInput := ⟨7958117532, "adm", "2025-01-01", dtimeSecs 11 0 0, "6"⟩

/-- C6: the missing-sweep is not idempotent — with members {A, B, C} and
only A marked for the morning, the first sweep penalizes B and C by 50
with one "missing" event each, and a second sweep in the same session on
the same day penalizes them again, doubling the totals. -/
theorem sweep_not_idempotent :
    (handle_message ⟨c6att, c6sal⟩ c6msg).2 =
      Outcome.swept [(2, "b"), (3, "c")] ∧
    lookupSal (handle_message ⟨c6att, c6sal⟩ c6msg).1.sal 2 =
      some ⟨"b", 50, [⟨"2025-01-01", 50, "missing"⟩]⟩ ∧
    (handle_message (handle_message ⟨c6att, c6sal⟩ c6msg).1 c6msg).2 =
      Outcome.swept [(2, "b"), (3, "c")] ∧
    lookupSal (handle_message (handle_message ⟨c6att, c6sal⟩ c6msg).1 c6msg).1.sal 2 =
      some ⟨"b", 100,
        [⟨"2025-01-01", 50, "missing"⟩, ⟨"2025-01-01", 50, "missing"⟩]⟩ ∧
    lookupSal (handle_message (handle_message ⟨c6att, c6sal⟩ c6msg).1 c6msg).1.sal 3 =
      some ⟨"c", 100,
        [⟨"2025-01-01", 50, "missing"⟩, ⟨"2025-01-01", 50, "missing"⟩]⟩ := by
  decide

/-- The attendance ledger of the C4 counterexample: user 5 appears under
two display names ("alice" in the morning, "ally" in the evening) on
2025-01-01, and the salary ledger is empty, so the sweep takes the
fallback branch. -/
def c4att : GroupAttendance :=
  [("2025-01-01",
    ⟨[⟨5, "alice", "2025-01-01", dtimeSecs 10 5 0, false, Session.morning⟩],
     [⟨5, "ally", "2025-01-01", dtimeSecs 16 40 0, false, Session.evening⟩]⟩)]

/-- C4 counterexample: with an empty salary ledger the fallback
known-members list deduplicates by the (user_id, name) pair, not by
user_id — user 5 appears twice in the penalized missing list (once per
name) and the sweep then penalizes them twice, 100 in total with two
"missing" events. -/
theorem sweep_fallback_dup_uid :
    missing_list [] c4att "2025-01-02" Session.morning =
      [(5, "alice"), (5, "ally")] ∧
    ¬ (missing_list [] c4att "2025-01-02" Session.morning).Pairwise
        (fun p q => p.1 ≠ q.1) ∧
    lookupSal
      (sweep_deduct [] (missing_list [] c4att "2025-01-02" Session.morning)
        "2025-01-02") 5 =
      some ⟨"alice", 100,
        [⟨"2025-01-02", 50, "missing"⟩, ⟨"2025-01-02", 50, "missing"⟩]⟩ := by
  decide

/-! ### Helper lemmas on the association-list dictionaries -/

theorem lookupSal_none_not_mem (g : GroupSalary) (uid : Nat)
    (h : lookupSal g uid = none) : ∀ p ∈ g, p.1 ≠ uid := by
  intro p hp
  unfold lookupSal at h
  rw [Option.map_eq_none'] at h
  have := List.find?_eq_none.mp h p hp
  simpa using this

theorem lookupSal_append_new (g : GroupSalary) (uid : Nat) (r : SalaryRecord)
    (h : lookupSal g uid = none) : lookupSal (g ++ [(uid, r)]) uid = some r := by
  unfold lookupSal at *
  rw [Option.map_eq_none'] at h
  rw [List.find?_append, h]
  simp

theorem lookupSal_map_keys (g : GroupSalary) (u : Nat)
    (f : Nat × SalaryRecord → Nat × SalaryRecord)
    (hf : ∀ p, (f p).1 = p.1) :
    (lookupSal (g.map f) u).isSome = (lookupSal g u).isSome := by
  induction g with
  | nil => rfl
  | cons p g ih =>
    unfold lookupSal at *
    simp only [List.map_cons, List.find?_cons]
    rw [hf p]
    by_cases h : p.1 == u
    · simp [h]
    · simp only [h]
      exact ih

theorem lookupSal_isSome_mem (g : GroupSalary) (u : Nat)
    (h : (lookupSal g u).isSome = true) : ∃ p ∈ g, p.1 = u := by
  unfold lookupSal at h
  cases hf : g.find? (fun p => p.1 == u) with
  | none => rw [hf] at h; simp at h
  | some p =>
    refine ⟨p, List.mem_of_find?_eq_some hf, ?_⟩
    have := List.find?_some hf
    simpa using this

/-! ### The deductions = sum(history) invariant (C1) -/

/-- The standing record invariant of the salary ledger: the cached total
equals the sum of the history amounts, and every recorded amount is
non-negative (every amount the code ever records is `LATE_PENALTY`). -/
def recInvariant (r : SalaryRecord) : Prop :=
  r.deductions = (r.history.map DeductionEvent.amount).sum ∧
  ∀ e ∈ r.history, 0 ≤ e.amount

/-- The ledger-wide invariant. -/
def salInvariant (g : GroupSalary) : Prop := ∀ p ∈ g, recInvariant p.2

theorem salInvariant_nil : salInvariant [] := by
  intro p hp
  cases hp

theorem ensure_user_salary_invariant (g : GroupSalary) (uid : Nat) (n : String)
    (h : salInvariant g) : salInvariant (ensure_user_salary g uid n) := by
  cases hl : lookupSal g uid with
  | none =>
    simp only [ensure_user_salary, hl]
    intro p hp
    rcases List.mem_append.mp hp with hp | hp
    · exact h p hp
    · simp only [List.mem_singleton] at hp
      subst hp
      exact ⟨rfl, by intro e he; cases he⟩
  | some r =>
    simp only [ensure_user_salary, hl]
    split
    · intro p hp
      rcases List.mem_map.mp hp with ⟨q, hq, rfl⟩
      split
      · exact h q hq
      · exact h q hq
    · exact h

theorem add_deduction_invariant (g : GroupSalary) (uid : Nat) (date : String)
    (amount : Int) (reason : String) (ha : 0 ≤ amount) (h : salInvariant g) :
    salInvariant (add_deduction g uid date amount reason) := by
  intro p hp
  rcases List.mem_map.mp hp with ⟨q, hq, rfl⟩
  unfold add_deduction at *
  split
  · obtain ⟨h1, h2⟩ := h q hq
    constructor
    · simp [h1]
    · intro e he
      rcases List.mem_append.mp he with he | he
      · exact h2 e he
      · simp only [List.mem_singleton] at he
        subst he
        exact ha
  · exact h q hq

theorem sweep_deduct_invariant (missing : List (Nat × String)) (today : String) :
    ∀ g : GroupSalary, salInvariant g →
      salInvariant (sweep_deduct g missing today) := by
  induction missing with
  | nil => intro g h; exact h
  | cons p missing ih =>
    intro g h
    unfold sweep_deduct at *
    simp only [List.foldl_cons]
    exact ih _ (add_deduction_invariant _ _ _ _ _ (by norm_num [LATE_PENALTY])
      (ensure_user_salary_invariant _ _ _ h))

theorem clear_all_invariant (g : GroupSalary) :
    salInvariant (clear_all g) := by
  intro p hp
  rcases List.mem_map.mp hp with ⟨q, hq, rfl⟩
  exact ⟨rfl, by intro e he; cases he⟩

theorem sum_map_filter_split (l : List DeductionEvent)
    (p : DeductionEvent → Bool) :
    ((l.filter p).map DeductionEvent.amount).sum +
      ((l.filter (fun x => !(p x))).map DeductionEvent.amount).sum =
      (l.map DeductionEvent.amount).sum := by
  induction l with
  | nil => simp
  | cons a l ih =>
    by_cases h : p a
    · simp only [List.filter_cons, h, if_pos, List.map_cons, List.sum_cons,
        Bool.not_true]
      simp only [Bool.false_eq_true, if_false]
      omega
    · simp only [List.filter_cons, h, Bool.false_eq_true, if_false,
        Bool.not_false, if_pos, List.map_cons, List.sum_cons]
      omega

theorem retract_rec_invariant (today : String) (r : SalaryRecord)
    (h : recInvariant r) : recInvariant (retract_rec today r).1 := by
  obtain ⟨h1, h2⟩ := h
  simp only [retract_rec]
  split
  · exact ⟨h1, h2⟩
  · have hsplit := sum_map_filter_split r.history (matches_missing today)
    have hnn : 0 ≤ ((r.history.filter (fun x => !(matches_missing today x))).map
        DeductionEvent.amount).sum := by
      apply List.sum_nonneg
      intro x hx
      rcases List.mem_map.mp hx with ⟨e, he, rfl⟩
      exact h2 e (List.mem_filter.mp he).1
    refine ⟨?_, ?_⟩
    · dsimp only
      rw [h1]
      have heq : (r.history.map DeductionEvent.amount).sum -
          ((r.history.filter (matches_missing today)).map
            DeductionEvent.amount).sum =
          ((r.history.filter (fun x => !(matches_missing today x))).map
            DeductionEvent.amount).sum := by
        omega
      rw [heq]
      exact max_eq_right hnn
    · intro e he
      exact h2 e (List.mem_filter.mp he).1

theorem retract_missing_invariant (sal : GroupSalary) (today : String)
    (h : salInvariant sal) : salInvariant (retract_missing sal today).1 := by
  intro p hp
  rcases List.mem_map.mp hp with ⟨q, hq, rfl⟩
  exact retract_rec_invariant today q.2 (h q hq)

theorem dispatch_invariant (st : GroupState) (inp : MsgInput)
    (h : salInvariant st.sal) : salInvariant (dispatch st inp).1.sal := by
  unfold dispatch
  dsimp only
  repeat' split
  all_goals
    first
      | exact h
      | exact add_deduction_invariant _ _ _ _ _ (by norm_num [LATE_PENALTY]) h
      | exact clear_all_invariant _
      | exact sweep_deduct_invariant _ _ _ h
      | exact retract_missing_invariant _ _ h

theorem handle_message_invariant (st : GroupState) (inp : MsgInput)
    (h : salInvariant st.sal) : salInvariant (handle_message st inp).1.sal :=
  dispatch_invariant _ inp (ensure_user_salary_invariant _ _ _ h)

theorem process_all_invariant (msgs : List MsgInput) :
    ∀ st : GroupState, salInvariant st.sal →
      salInvariant (process_all st msgs).sal := by
  induction msgs with
  | nil => intro st h; exact h
  | cons m msgs ih =>
    intro st h
    unfold process_all at *
    simp only [List.foldl_cons]
    exact ih _ (handle_message_invariant st m h)

/-- C1: starting from an untouched group, after any sequence of inbound
messages (covering every mutating operation: late-mark deductions,
missing sweeps, retraction of today's missing deductions, and clearing
all deductions), every salary record's cached `deductions` equals the
sum of the `amount` fields of its `history`. -/
theorem deductions_equal_history_sum (msgs : List MsgInput) :
    ∀ p ∈ (process_all initialState msgs).sal,
      p.2.deductions = (p.2.history.map DeductionEvent.amount).sum := by
  intro p hp
  exact ((process_all_invariant msgs initialState salInvariant_nil) p hp).1

/-- Witness for C1 at a concrete input: one late mark by user 1. -/
theorem deductions_equal_history_sum_witness :
    ((1 : Nat), (⟨"v", 50, [⟨"2025-01-01", 50, "late"⟩]⟩ : SalaryRecord)) ∈
      (process_all initialState
        [⟨1, "v", "2025-01-01", dtimeSecs 10 45 0, "1"⟩]).sal ∧
    (50 : Int) = (([⟨"2025-01-01", 50, "late"⟩] :
        List DeductionEvent).map DeductionEvent.amount).sum :=
  ⟨by decide,
   deductions_equal_history_sum
     [⟨1, "v", "2025-01-01", dtimeSecs 10 45 0, "1"⟩]
     (1, ⟨"v", 50, [⟨"2025-01-01", 50, "late"⟩]⟩) (by decide)⟩

/-! ### Admin immunity (C5) -/

theorem not_mem_of_contains_eq_false {l : List Nat} {a : Nat}
    (h : l.contains a = false) : a ∉ l := by
  intro hm
  have ht : l.contains a = true := by
    rw [List.contains_eq_any_beq]
    exact List.any_eq_true.mpr ⟨a, hm, by simp⟩
  rw [ht] at h
  cases h

theorem contains_eq_true_of_mem {l : List Nat} {a : Nat} (h : a ∈ l) :
    l.contains a = true := by
  rw [List.contains_eq_any_beq]
  exact List.any_eq_true.mpr ⟨a, h, by simp⟩

/-- An admin's salary record, when it exists, is pristine: zero
deductions and empty history. -/
def adminClean (g : GroupSalary) : Prop :=
  ∀ p ∈ g, p.1 ∈ ADMIN_IDS → p.2.deductions = 0 ∧ p.2.history = []

theorem ensure_user_salary_adminClean (g : GroupSalary) (uid : Nat)
    (n : String) (h : adminClean g) :
    adminClean (ensure_user_salary g uid n) := by
  cases hl : lookupSal g uid with
  | none =>
    simp only [ensure_user_salary, hl]
    intro p hp
    rcases List.mem_append.mp hp with hp | hp
    · exact h p hp
    · simp only [List.mem_singleton] at hp
      subst hp
      intro _
      exact ⟨rfl, rfl⟩
  | some r =>
    simp only [ensure_user_salary, hl]
    split
    · intro p hp
      rcases List.mem_map.mp hp with ⟨q, hq, rfl⟩
      split
      · exact h q hq
      · exact h q hq
    · exact h

theorem add_deduction_adminClean (g : GroupSalary) (uid : Nat) (date : String)
    (amount : Int) (reason : String)
    (huid : ADMIN_IDS.contains uid = false) (h : adminClean g) :
    adminClean (add_deduction g uid date amount reason) := by
  intro p hp
  rcases List.mem_map.mp hp with ⟨q, hq, rfl⟩
  split
  · rename_i hqu
    intro hadm
    exact absurd (contains_eq_true_of_mem (hqu ▸ hadm)) (by rw [huid]; simp)
  · exact h q hq

theorem clear_all_adminClean (g : GroupSalary) : adminClean (clear_all g) := by
  intro p hp
  rcases List.mem_map.mp hp with ⟨q, hq, rfl⟩
  intro _
  exact ⟨rfl, rfl⟩

theorem retract_missing_adminClean (sal : GroupSalary) (today : String)
    (h : adminClean sal) : adminClean (retract_missing sal today).1 := by
  intro p hp
  rcases List.mem_map.mp hp with ⟨q, hq, rfl⟩
  intro hadm
  obtain ⟨h1, h2⟩ := h q hq hadm
  simp [retract_rec, h1, h2]

theorem missing_list_not_admin (sal : GroupSalary) (att : GroupAttendance)
    (date : String) (s : Session) :
    ∀ q ∈ missing_list sal att date s, ADMIN_IDS.contains q.1 = false := by
  intro q hq
  have hcond := (List.mem_filter.mp hq).2
  simp only [Bool.and_eq_true, Bool.not_eq_true'] at hcond
  exact hcond.2

theorem sweep_deduct_adminClean (missing : List (Nat × String)) (today : String)
    (hm : ∀ q ∈ missing, ADMIN_IDS.contains q.1 = false) :
    ∀ g : GroupSalary, adminClean g → adminClean (sweep_deduct g missing today) := by
  induction missing with
  | nil => intro g h; exact h
  | cons q missing ih =>
    intro g h
    unfold sweep_deduct at *
    simp only [List.foldl_cons]
    exact ih (fun q2 hq2 => hm q2 (List.mem_cons_of_mem _ hq2)) _
      (add_deduction_adminClean _ _ _ _ _ (hm q (List.mem_cons_self _ _))
        (ensure_user_salary_adminClean _ _ _ h))

theorem dispatch_adminClean (st : GroupState) (inp : MsgInput)
    (h : adminClean st.sal) : adminClean (dispatch st inp).1.sal := by
  unfold dispatch
  dsimp only
  repeat' split
  all_goals
    first
      | exact h
      | exact clear_all_adminClean _
      | exact retract_missing_adminClean _ _ h
      | exact sweep_deduct_adminClean _ _ (missing_list_not_admin _ _ _ _) _ h
      | (rename_i hnadm hnwin
         exact add_deduction_adminClean _ _ _ _ _
           (by simpa using hnadm) h)

theorem handle_message_adminClean (st : GroupState) (inp : MsgInput)
    (h : adminClean st.sal) : adminClean (handle_message st inp).1.sal :=
  dispatch_adminClean _ inp (ensure_user_salary_adminClean _ _ _ h)

theorem process_all_adminClean (msgs : List MsgInput) :
    ∀ st : GroupState, adminClean st.sal →
      adminClean (process_all st msgs).sal := by
  induction msgs with
  | nil => intro st h; exact h
  | cons m msgs ih =>
    intro st h
    unfold process_all at *
    simp only [List.foldl_cons]
    exact ih _ (handle_message_adminClean st m h)

/-- C5: admin immunity — starting from an untouched group, after any
sequence of inbound messages (marks with any timestamps, sweeps, and
everything else), the salary record of an admin id, whenever it exists,
has zero deductions and an empty history; no deduction event is ever
created for an admin. -/
theorem admin_immunity (msgs : List MsgInput) :
    ∀ a ∈ ADMIN_IDS, ∀ r : SalaryRecord,
      lookupSal (process_all initialState msgs).sal a = some r →
      r.deductions = 0 ∧ r.history = [] := by
  intro a ha r hr
  have hclean : adminClean (process_all initialState msgs).sal :=
    process_all_adminClean msgs initialState (by intro p hp; cases hp)
  unfold lookupSal at hr
  cases hf : (process_all initialState msgs).sal.find? (fun p => p.1 == a) with
  | none => rw [hf] at hr; cases hr
  | some p =>
    rw [hf] at hr
    have hpr : p.2 = r := by simpa using hr
    have hpm := List.mem_of_find?_eq_some hf
    have hpa : p.1 = a := by simpa using List.find?_some hf
    rw [← hpr]
    exact hclean p hpm (hpa ▸ ha)

/-- Witness for C5 at a concrete input: an admin marks at 10:45 (outside
every window) and still accrues nothing. -/
theorem admin_immunity_witness :
    ((7958117532 : Nat) ∈ ADMIN_IDS) ∧
    ((⟨"adm", 0, []⟩ : SalaryRecord).deductions = 0 ∧
     (⟨"adm", 0, []⟩ : SalaryRecord).history = []) :=
  ⟨by decide,
   admin_immunity [⟨7958117532, "adm", "2025-01-01", dtimeSecs 10 45 0, "1"⟩]
     7958117532 (by decide) ⟨"adm", 0, []⟩ (by decide)⟩

/-! ### Retraction exactness (C3) -/

theorem late_and_not_missing (today : String) :
    ∀ h : DeductionEvent,
      ((h.reason == "late") && !(matches_missing today h)) =
        (h.reason == "late") := by
  intro h
  cases hb : h.reason == "late" with
  | false => simp
  | true =>
    have hr : h.reason = "late" := by simpa using hb
    simp [matches_missing, hr]

/-- C3: retraction is exact and scoped.  Per record:
(a) the surviving history is exactly the events that do not match
    (date = today ∧ reason = "missing");
(b) events with reason "late" — same date or not — are untouched;
(c) `deductions` is decremented by exactly the removed sum, floored at 0,
    and is unchanged when nothing matched.
Across the group: (d) the report lists exactly the records with at least
one matching event, in ledger order, each with its exact removed sum, and
(e) the set and order of user keys is preserved. -/
theorem retract_exact (today : String) (rec : SalaryRecord) (sal : GroupSalary) :
    ((retract_rec today rec).1.history =
      rec.history.filter (fun h => !(matches_missing today h))) ∧
    ((retract_rec today rec).1.history.filter (fun h => h.reason == "late") =
      rec.history.filter (fun h => h.reason == "late")) ∧
    ((retract_rec today rec).1.deductions =
      if (rec.history.filter (matches_missing today)).isEmpty then
        rec.deductions
      else
        max 0 (rec.deductions -
          ((rec.history.filter (matches_missing today)).map
            DeductionEvent.amount).sum)) ∧
    ((retract_missing sal today).2 =
      (sal.filter (fun p =>
          !(p.2.history.filter (matches_missing today)).isEmpty)).map
        (fun p => (p.2.username,
          ((p.2.history.filter (matches_missing today)).map
            DeductionEvent.amount).sum))) ∧
    ((retract_missing sal today).1.map Prod.fst = sal.map Prod.fst) := by
  have hhist : (retract_rec today rec).1.history =
      rec.history.filter (fun h => !(matches_missing today h)) := by
    simp only [retract_rec]
    split
    · rename_i hE
      have hnil : rec.history.filter (matches_missing today) = [] := by
        simpa using hE
      have hall := List.filter_eq_nil_iff.mp hnil
      exact (List.filter_eq_self.mpr (fun a ha => by
        simpa using hall a ha)).symm
    · rfl
  refine ⟨hhist, ?_, ?_, ?_, ?_⟩
  · rw [hhist, List.filter_filter]
    exact List.filter_congr (fun a _ => late_and_not_missing today a)
  · simp only [retract_rec]
    split
    · rfl
    · rfl
  · induction sal with
    | nil => rfl
    | cons p sal ih =>
      simp only [retract_missing] at ih ⊢
      by_cases hE : (p.2.history.filter (matches_missing today)).isEmpty = true
      · have hp : (retract_rec today p.2).2 = none := by
          simp only [retract_rec]
          rw [if_pos hE]
        rw [List.filterMap_cons, hp, List.filter_cons, hE]
        simpa using ih
      · have hp : (retract_rec today p.2).2 =
            some (p.2.username,
              ((p.2.history.filter (matches_missing today)).map
                DeductionEvent.amount).sum) := by
          simp only [retract_rec]
          rw [if_neg hE]
        have hE2 : (p.2.history.filter (matches_missing today)).isEmpty = false := by
          simpa using hE
        rw [List.filterMap_cons, hp, List.filter_cons, hE2]
        simpa using ih
  · simp only [retract_missing, List.map_map]
    rfl

/-! ### The missing-sweep member computation (C4) -/

theorem contains_eq_false_of_not_mem {l : List Nat} {a : Nat} (h : a ∉ l) :
    l.contains a = false := by
  cases hc : l.contains a with
  | false => rfl
  | true =>
    exfalso
    apply h
    rw [List.contains_eq_any_beq] at hc
    rcases List.any_eq_true.mp hc with ⟨x, hx, hax⟩
    have hax2 : a = x := by simpa using hax
    subst hax2
    exact hx

theorem dedup_pairs_loop_mem (l : List (Nat × String)) :
    ∀ (acc : List (Nat × String)) (q : Nat × String),
      (q ∈ l.foldl (fun acc p => if p ∈ acc then acc else acc ++ [p]) acc) ↔
        (q ∈ acc ∨ q ∈ l) := by
  induction l with
  | nil =>
    intro acc q
    simp
  | cons p l ih =>
    intro acc q
    simp only [List.foldl_cons]
    by_cases hp : p ∈ acc
    · rw [if_pos hp, ih acc q]
      constructor
      · rintro (h | h)
        · exact Or.inl h
        · exact Or.inr (List.mem_cons_of_mem _ h)
      · rintro (h | h)
        · exact Or.inl h
        · rcases List.mem_cons.mp h with rfl | h
          · exact Or.inl hp
          · exact Or.inr h
    · rw [if_neg hp, ih (acc ++ [p]) q]
      simp only [List.mem_append, List.mem_singleton, List.mem_cons]
      tauto

theorem dedup_pairs_mem (l : List (Nat × String)) (q : Nat × String) :
    q ∈ dedup_pairs l ↔ q ∈ l := by
  unfold dedup_pairs
  rw [dedup_pairs_loop_mem]
  simp

theorem dedup_pairs_loop_nodup (l : List (Nat × String)) :
    ∀ acc : List (Nat × String), acc.Nodup →
      (l.foldl (fun acc p => if p ∈ acc then acc else acc ++ [p]) acc).Nodup := by
  induction l with
  | nil => intro acc h; exact h
  | cons p l ih =>
    intro acc h
    simp only [List.foldl_cons]
    by_cases hp : p ∈ acc
    · rw [if_pos hp]
      exact ih acc h
    · rw [if_neg hp]
      apply ih
      rw [List.nodup_append]
      refine ⟨h, List.nodup_singleton _, ?_⟩
      intro a ha hap
      rw [List.mem_singleton] at hap
      subst hap
      exact hp ha

theorem dedup_pairs_nodup (l : List (Nat × String)) : (dedup_pairs l).Nodup :=
  dedup_pairs_loop_nodup l [] List.nodup_nil

/-- C4 (amended): the known-members list is the salary ledger's users in
ledger order when the ledger is non-empty; otherwise it is the union of
all attendance pairs, deduplicated by the (user_id, display_name) PAIR —
not by user_id alone, so one user under two names yields two entries —
in the set's (unspecified) iteration order.  The penalized missing list
consists exactly of the known members whose user_id is neither marked
for the session today nor an admin id, in known-members order. -/
theorem sweep_missing_spec (sal : GroupSalary) (att : GroupAttendance)
    (date : String) (s : Session) :
    ((sal ≠ []) →
      known_members sal att = sal.map (fun p => (p.1, p.2.username))) ∧
    ((sal = []) → (known_members sal att).Nodup ∧
      ∀ q : Nat × String, q ∈ known_members sal att ↔ q ∈ att_pairs att) ∧
    (∀ q ∈ missing_list sal att date s,
      q ∈ known_members sal att ∧
      q.1 ∉ marked_ids (getDay att date) s ∧ q.1 ∉ ADMIN_IDS) ∧
    (∀ q ∈ known_members sal att,
      q.1 ∉ marked_ids (getDay att date) s → q.1 ∉ ADMIN_IDS →
      q ∈ missing_list sal att date s) ∧
    (missing_list sal att date s).Sublist (known_members sal att) := by
  refine ⟨?_, ?_, ?_, ?_, ?_⟩
  · intro hne
    cases sal with
    | nil => exact absurd rfl hne
    | cons p sal => rfl
  · intro he
    subst he
    exact ⟨dedup_pairs_nodup _, fun q => dedup_pairs_mem _ q⟩
  · intro q hq
    have h1 := (List.mem_filter.mp hq).1
    have h2 := (List.mem_filter.mp hq).2
    simp only [Bool.and_eq_true, Bool.not_eq_true'] at h2
    exact ⟨h1, not_mem_of_contains_eq_false h2.1,
      not_mem_of_contains_eq_false h2.2⟩
  · intro q hq hm ha
    refine List.mem_filter.mpr ⟨hq, ?_⟩
    simp only [Bool.and_eq_true, Bool.not_eq_true']
    exact ⟨contains_eq_false_of_not_mem hm, contains_eq_false_of_not_mem ha⟩
  · exact List.filter_sublist _

/-! ### Mark idempotence (C2) -/

theorem sess_setSess_same (d : DayRecord) (s : Session)
    (l : List AttendanceEntry) : (d.setSess s l).sess s = l := by
  cases s <;> rfl

theorem lookupDay_ensure_day (att : GroupAttendance) (date : String) :
    lookupDay (ensure_day_structure att date) date = some (getDay att date) := by
  cases h : lookupDay att date with
  | none =>
    have hf : att.find? (fun p => p.1 == date) = none := Option.map_eq_none'.mp h
    simp only [ensure_day_structure, h, getDay, Option.getD_none]
    unfold lookupDay
    rw [List.find?_append, hf]
    simp
  | some d =>
    simp only [ensure_day_structure, h, getDay, Option.getD_some]

theorem ensure_day_of_isSome (att : GroupAttendance) (date : String)
    (h : (lookupDay att date).isSome = true) :
    ensure_day_structure att date = att := by
  cases hl : lookupDay att date with
  | none => rw [hl] at h; cases h
  | some d => simp only [ensure_day_structure, hl]

theorem getDay_ensure_day (att : GroupAttendance) (date : String) :
    getDay (ensure_day_structure att date) date = getDay att date := by
  have h := lookupDay_ensure_day att date
  unfold getDay
  unfold getDay at h
  rw [h, Option.getD_some]

theorem lookupDay_appendEntry (att : GroupAttendance) (date : String)
    (s : Session) (e : AttendanceEntry) (d : DayRecord)
    (h : lookupDay att date = some d) :
    lookupDay (appendEntry att date s e) date =
      some (d.setSess s (d.sess s ++ [e])) := by
  induction att with
  | nil => cases h
  | cons p att ih =>
    by_cases hp : p.1 = date
    · have hb : (p.1 == date) = true := by simpa using hp
      have hpd : p.2 = d := by
        unfold lookupDay at h
        simp only [List.find?_cons, hb] at h
        simpa using h
      unfold appendEntry lookupDay
      simp only [List.map_cons, if_pos hp, List.find?_cons, hb]
      simp [hpd]
    · have hb : (p.1 == date) = false := by simpa using hp
      have h2 : lookupDay att date = some d := by
        unfold lookupDay at h ⊢
        simp only [List.find?_cons, hb] at h
        exact h
      have hrec := ih h2
      unfold appendEntry lookupDay at hrec ⊢
      simp only [List.map_cons, if_neg hp, List.find?_cons, hb]
      exact hrec

/-- After `ensure_user_salary g uid n`, the key is present and (when the
supplied name is non-empty) every record at that key carries a non-empty
username — exactly what makes a repeated ensure a no-op. -/
def EnsuredAt (g : GroupSalary) (uid : Nat) (n : String) : Prop :=
  (lookupSal g uid).isSome = true ∧
  ∀ p ∈ g, p.1 = uid → n ≠ "" → p.2.username ≠ ""

theorem ensuredAt_ensure (g : GroupSalary) (uid : Nat) (n : String) :
    EnsuredAt (ensure_user_salary g uid n) uid n := by
  cases hl : lookupSal g uid with
  | none =>
    simp only [ensure_user_salary, hl]
    constructor
    · rw [lookupSal_append_new g uid _ hl]
      rfl
    · intro p hp hpu hn
      rcases List.mem_append.mp hp with hp | hp
      · exact absurd hpu (lookupSal_none_not_mem g uid hl p hp)
      · simp only [List.mem_singleton] at hp
        subst hp
        dsimp only
        split
        · simp
        · exact hn
  | some r =>
    simp only [ensure_user_salary, hl]
    by_cases hn : n ≠ ""
    · rw [if_pos hn]
      constructor
      · rw [lookupSal_map_keys]
        · rw [hl]; rfl
        · intro p
          split <;> rfl
      · intro p hp hpu _
        rcases List.mem_map.mp hp with ⟨q, hq, rfl⟩
        by_cases hc : q.1 = uid ∧ q.2.username = ""
        · rw [if_pos hc]
          exact hn
        · rw [if_neg hc] at hpu ⊢
          exact fun he => hc ⟨hpu, he⟩
    · rw [if_neg hn]
      constructor
      · rw [hl]; rfl
      · intro p hp hpu hn2
        exact absurd (by simpa using hn) hn2

theorem ensuredAt_add (g : GroupSalary) (uid u2 : Nat) (n date reason : String)
    (amount : Int) (h : EnsuredAt g uid n) :
    EnsuredAt (add_deduction g u2 date amount reason) uid n := by
  obtain ⟨h1, h2⟩ := h
  constructor
  · unfold add_deduction
    rw [lookupSal_map_keys]
    · exact h1
    · intro p
      split <;> rfl
  · intro p hp hpu hn
    rcases List.mem_map.mp hp with ⟨q, hq, rfl⟩
    by_cases hc : q.1 = u2
    · rw [if_pos hc] at hpu ⊢
      exact h2 q hq hpu hn
    · rw [if_neg hc] at hpu ⊢
      exact h2 q hq hpu hn

theorem ensure_eq_of_ensuredAt (g : GroupSalary) (uid : Nat) (n : String)
    (h : EnsuredAt g uid n) : ensure_user_salary g uid n = g := by
  obtain ⟨h1, h2⟩ := h
  cases hl : lookupSal g uid with
  | none => rw [hl] at h1; cases h1
  | some r =>
    simp only [ensure_user_salary, hl]
    by_cases hn : n ≠ ""
    · rw [if_pos hn]
      have hid : ∀ p ∈ g,
          (if p.1 = uid ∧ p.2.username = "" then
            (p.1, { p.2 with username := n }) else p) = p := by
        intro p hp
        rw [if_neg]
        rintro ⟨hpu, hemp⟩
        exact h2 p hp hpu hn hemp
      rw [List.map_congr_left hid]
      exact List.map_id g
    · rw [if_neg hn]

theorem dispatch_mark_already (st : GroupState) (inp : MsgInput)
    (ht : inp.text = "1")
    (hany : ((getDay st.att inp.date).sess (current_session inp.time)).any
        (fun e => e.user_id == inp.uid) = true) :
    dispatch st inp = (st, Outcome.markedAlready) := by
  unfold dispatch
  dsimp only
  rw [if_pos ht, if_pos hany]

theorem dispatch_mark_created (st : GroupState) (inp : MsgInput)
    (ht : inp.text = "1")
    (hany : ((getDay st.att inp.date).sess (current_session inp.time)).any
        (fun e => e.user_id == inp.uid) = false) :
    dispatch st inp =
      (⟨appendEntry st.att inp.date (current_session inp.time)
          ⟨inp.uid, inp.username, inp.date, inp.time,
            if ADMIN_IDS.contains inp.uid then false
            else !(is_within_window inp.time), current_session inp.time⟩,
        if ADMIN_IDS.contains inp.uid then st.sal
        else if is_within_window inp.time then st.sal
        else add_deduction st.sal inp.uid inp.date LATE_PENALTY "late"⟩,
       Outcome.marked
         (if ADMIN_IDS.contains inp.uid then false
          else !(is_within_window inp.time))) := by
  unfold dispatch
  dsimp only
  rw [if_pos ht,
    if_neg (fun hcontra => by rw [hany] at hcontra; exact Bool.noConfusion hcontra)]

theorem getDay_appendEntry (att : GroupAttendance) (date : String)
    (s : Session) (e : AttendanceEntry) (d : DayRecord)
    (h : lookupDay att date = some d) :
    getDay (appendEntry att date s e) date = d.setSess s (d.sess s ++ [e]) := by
  unfold getDay
  rw [lookupDay_appendEntry _ _ _ _ _ h, Option.getD_some]

theorem handle_mark_already_state (st2 : GroupState) (uid : Nat)
    (uname date : String) (t : Nat)
    (hany : ((getDay st2.att date).sess (current_session t)).any
        (fun e => e.user_id == uid) = true)
    (hday : (lookupDay st2.att date).isSome = true)
    (hsal : EnsuredAt st2.sal uid uname) :
    handle_message st2 ⟨uid, uname, date, t, "1"⟩ =
      (st2, Outcome.markedAlready) := by
  have hes : ensure_structures st2 ⟨uid, uname, date, t, "1"⟩ = st2 := by
    unfold ensure_structures
    rw [ensure_day_of_isSome _ _ hday, ensure_eq_of_ensuredAt _ _ _ hsal]
  show dispatch (ensure_structures st2 ⟨uid, uname, date, t, "1"⟩)
      ⟨uid, uname, date, t, "1"⟩ = _
  rw [hes]
  exact dispatch_mark_already st2 _ rfl hany

/-- C2: marking is idempotent per (group, date, session, user) — from a
state where the user has not marked the session, the first mark call
returns Created and leaves exactly one entry for the user in that
session's list, and a second mark call on the same day with ANY
timestamp of the same session (and the same display name) returns
AlreadyMarked and mutates neither the attendance nor the salary
ledger. -/
theorem mark_idempotent (st : GroupState) (uid : Nat) (uname date : String)
    (t1 t2 : Nat)
    (hsess : current_session t2 = current_session t1)
    (hfresh : ∀ e ∈ (getDay st.att date).sess (current_session t1),
      e.user_id ≠ uid) :
    (∃ b, (handle_message st ⟨uid, uname, date, t1, "1"⟩).2 =
      Outcome.marked b) ∧
    ((getDay (handle_message st ⟨uid, uname, date, t1, "1"⟩).1.att date).sess
        (current_session t1)).countP (fun e => e.user_id == uid) = 1 ∧
    (handle_message (handle_message st ⟨uid, uname, date, t1, "1"⟩).1
        ⟨uid, uname, date, t2, "1"⟩).2 = Outcome.markedAlready ∧
    (handle_message (handle_message st ⟨uid, uname, date, t1, "1"⟩).1
        ⟨uid, uname, date, t2, "1"⟩).1 =
      (handle_message st ⟨uid, uname, date, t1, "1"⟩).1 := by
  have hlookE : lookupDay (ensure_day_structure st.att date) date =
      some (getDay st.att date) := lookupDay_ensure_day st.att date
  have hany1 : ((getDay (ensure_day_structure st.att date) date).sess
      (current_session t1)).any (fun e => e.user_id == uid) = false := by
    rw [getDay_ensure_day, List.any_eq_false]
    intro e he
    simpa using hfresh e he
  have hm1 : handle_message st ⟨uid, uname, date, t1, "1"⟩ =
      (⟨appendEntry (ensure_day_structure st.att date) date
          (current_session t1)
          ⟨uid, uname, date, t1,
            if ADMIN_IDS.contains uid then false
            else !(is_within_window t1), current_session t1⟩,
        if ADMIN_IDS.contains uid then ensure_user_salary st.sal uid uname
        else if is_within_window t1 then ensure_user_salary st.sal uid uname
        else add_deduction (ensure_user_salary st.sal uid uname) uid date
          LATE_PENALTY "late"⟩,
       Outcome.marked
         (if ADMIN_IDS.contains uid then false
          else !(is_within_window t1))) :=
    dispatch_mark_created
      ⟨ensure_day_structure st.att date, ensure_user_salary st.sal uid uname⟩
      ⟨uid, uname, date, t1, "1"⟩ rfl hany1
  have hens : EnsuredAt
      (if ADMIN_IDS.contains uid then ensure_user_salary st.sal uid uname
       else if is_within_window t1 then ensure_user_salary st.sal uid uname
       else add_deduction (ensure_user_salary st.sal uid uname) uid date
         LATE_PENALTY "late") uid uname := by
    split
    · exact ensuredAt_ensure _ _ _
    · split
      · exact ensuredAt_ensure _ _ _
      · exact ensuredAt_add _ _ _ _ _ _ _ (ensuredAt_ensure _ _ _)
  have hm2 : handle_message (handle_message st ⟨uid, uname, date, t1, "1"⟩).1
      ⟨uid, uname, date, t2, "1"⟩ =
      ((handle_message st ⟨uid, uname, date, t1, "1"⟩).1,
       Outcome.markedAlready) := by
    apply handle_mark_already_state
    · rw [hm1]
      dsimp only
      rw [hsess, getDay_appendEntry _ _ _ _ _ hlookE, sess_setSess_same]
      simp
    · rw [hm1]
      dsimp only
      rw [lookupDay_appendEntry _ _ _ _ _ hlookE]
      rfl
    · rw [hm1]
      exact hens
  refine ⟨⟨_, by rw [hm1]⟩, ?_, by rw [hm2], by rw [hm2]⟩
  rw [hm1]
  dsimp only
  rw [getDay_appendEntry _ _ _ _ _ hlookE, sess_setSess_same,
    List.countP_append]
  have hz : ((getDay st.att date).sess (current_session t1)).countP
      (fun e => e.user_id == uid) = 0 :=
    List.countP_eq_zero.mpr (fun e he => by simpa using hfresh e he)
  rw [hz]
  simp [List.countP_cons]

/-- Witness for C2 at a concrete input: user 1 marks at 10:05 and again
at 10:20 of the same morning. -/
theorem mark_idempotent_witness :
    (∃ b, (handle_message initialState
      ⟨1, "u", "2025-01-01", dtimeSecs 10 5 0, "1"⟩).2 = Outcome.marked b) ∧
    ((getDay (handle_message initialState
        ⟨1, "u", "2025-01-01", dtimeSecs 10 5 0, "1"⟩).1.att "2025-01-01").sess
        (current_session (dtimeSecs 10 5 0))).countP
        (fun e => e.user_id == 1) = 1 ∧
    (handle_message (handle_message initialState
        ⟨1, "u", "2025-01-01", dtimeSecs 10 5 0, "1"⟩).1
        ⟨1, "u", "2025-01-01", dtimeSecs 10 20 0, "1"⟩).2 =
      Outcome.markedAlready ∧
    (handle_message (handle_message initialState
        ⟨1, "u", "2025-01-01", dtimeSecs 10 5 0, "1"⟩).1
        ⟨1, "u", "2025-01-01", dtimeSecs 10 20 0, "1"⟩).1 =
      (handle_message initialState
        ⟨1, "u", "2025-01-01", dtimeSecs 10 5 0, "1"⟩).1 :=
  mark_idempotent initialState 1 "u" "2025-01-01"
    (dtimeSecs 10 5 0) (dtimeSecs 10 20 0) (by decide) (by decide)

/-! ### Every message creates the sender's records (C10) -/

theorem lookupSal_isSome_ensure (g : GroupSalary) (uid : Nat) (n : String)
    (u2 : Nat) (h : (lookupSal g u2).isSome = true) :
    (lookupSal (ensure_user_salary g uid n) u2).isSome = true := by
  cases hl : lookupSal g uid with
  | none =>
    simp only [ensure_user_salary, hl]
    unfold lookupSal at h ⊢
    cases hf : g.find? (fun p => p.1 == u2) with
    | none => rw [hf] at h; simp at h
    | some p =>
      rw [List.find?_append, hf]
      rfl
  | some r =>
    simp only [ensure_user_salary, hl]
    split
    · rw [lookupSal_map_keys]
      · exact h
      · intro p
        split <;> rfl
    · exact h

theorem lookupSal_isSome_add (g : GroupSalary) (uid : Nat) (date : String)
    (amount : Int) (reason : String) (u2 : Nat)
    (h : (lookupSal g u2).isSome = true) :
    (lookupSal (add_deduction g uid date amount reason) u2).isSome = true := by
  unfold add_deduction
  rw [lookupSal_map_keys]
  · exact h
  · intro p
    split <;> rfl

theorem lookupSal_isSome_clear (g : GroupSalary) (u2 : Nat)
    (h : (lookupSal g u2).isSome = true) :
    (lookupSal (clear_all g) u2).isSome = true := by
  unfold clear_all
  rw [lookupSal_map_keys]
  · exact h
  · intro p
    rfl

theorem lookupSal_isSome_retract (sal : GroupSalary) (today : String)
    (u2 : Nat) (h : (lookupSal sal u2).isSome = true) :
    (lookupSal (retract_missing sal today).1 u2).isSome = true := by
  unfold retract_missing
  rw [lookupSal_map_keys]
  · exact h
  · intro p
    rfl

theorem lookupSal_isSome_sweep (missing : List (Nat × String)) (today : String) :
    ∀ (g : GroupSalary) (u2 : Nat), (lookupSal g u2).isSome = true →
      (lookupSal (sweep_deduct g missing today) u2).isSome = true := by
  induction missing with
  | nil => intro g u2 h; exact h
  | cons p missing ih =>
    intro g u2 h
    unfold sweep_deduct at *
    simp only [List.foldl_cons]
    exact ih _ _ (lookupSal_isSome_add _ _ _ _ _ _
      (lookupSal_isSome_ensure _ _ _ _ h))

set_option maxHeartbeats 1000000 in
theorem dispatch_keeps_user (st : GroupState) (inp : MsgInput) (u2 : Nat)
    (h : (lookupSal st.sal u2).isSome = true) :
    (lookupSal (dispatch st inp).1.sal u2).isSome = true := by
  unfold dispatch
  dsimp only
  repeat' split
  all_goals
    first
      | exact h
      | exact lookupSal_isSome_add _ _ _ _ _ _ h
      | exact lookupSal_isSome_clear _ _ h
      | exact lookupSal_isSome_retract _ _ _ h
      | exact lookupSal_isSome_sweep _ _ _ _ h

/-- C10 (implicit): for every inbound message — whatever the text, the
permission outcome, or the sender's admin status — the handler first
ensures structures: the sender's salary record exists afterwards (with
display name "unknown" when the message supplied none), today's day
record exists in the attendance ledger at dispatch time, and after the
whole message is handled the sender remains a key of the salary ledger
and hence a known member for every future missing sweep. -/
theorem ensure_before_dispatch (st : GroupState) (inp : MsgInput) :
    (handle_message st inp = dispatch (ensure_structures st inp) inp) ∧
    ((lookupSal (ensure_structures st inp).sal inp.uid).isSome = true) ∧
    (lookupSal st.sal inp.uid = none →
      lookupSal (ensure_structures st inp).sal inp.uid =
        some ⟨if inp.username = "" then "unknown" else inp.username, 0, []⟩) ∧
    ((lookupDay (ensure_structures st inp).att inp.date).isSome = true) ∧
    ((lookupSal (handle_message st inp).1.sal inp.uid).isSome = true) ∧
    (inp.uid ∈ (known_members (handle_message st inp).1.sal
        (handle_message st inp).1.att).map Prod.fst) := by
  have hens : (lookupSal (ensure_structures st inp).sal inp.uid).isSome = true :=
    (ensuredAt_ensure st.sal inp.uid inp.username).1
  have hkeep : (lookupSal (handle_message st inp).1.sal inp.uid).isSome = true :=
    dispatch_keeps_user _ inp inp.uid hens
  refine ⟨rfl, hens, ?_, ?_, hkeep, ?_⟩
  · intro hnone
    dsimp only [ensure_structures]
    simp only [ensure_user_salary, hnone]
    exact lookupSal_append_new _ _ _ hnone
  · dsimp only [ensure_structures]
    rw [lookupDay_ensure_day]
    rfl
  · obtain ⟨p, hp, hpu⟩ := lookupSal_isSome_mem _ _ hkeep
    cases hsal : (handle_message st inp).1.sal with
    | nil => rw [hsal] at hp; cases hp
    | cons q rest =>
      rw [hsal] at hp
      show inp.uid ∈ ((q :: rest).map (fun p => (p.1, p.2.username))).map Prod.fst
      rw [List.map_map]
      exact List.mem_map.mpr ⟨p, hp, hpu⟩

/-- C7: the session is morning exactly when the time-of-day is strictly
before 13:00:00; lateness is decided solely by the two inclusive
windows; and a non-admin marking at 10:45:00 gets `Created(late=true)`,
deductions 50, and a single `{reason: late, amount: 50}` history
event. -/
theorem session_independent_of_lateness (t : Nat) :
    (current_session t = Session.morning ↔ t < dtimeSecs 13 0 0) ∧
    (is_within_window t = true ↔
      ((MORNING_START ≤ t ∧ t ≤ MORNING_END) ∨
       (EVENING_START ≤ t ∧ t ≤ EVENING_END))) ∧
    (∀ (st : GroupState) (uid : Nat) (uname date : String),
      ((getDay st.att date).sess (current_session t)).any
          (fun e => e.user_id == uid) = false →
      ADMIN_IDS.contains uid = false →
      (handle_message st ⟨uid, uname, date, t, "1"⟩).2 =
        Outcome.marked (!(is_within_window t))) ∧
    (handle_message initialState ⟨1, "v", "2025-01-01", dtimeSecs 10 45 0, "1"⟩).2 =
      Outcome.marked true ∧
    lookupSal
      (handle_message initialState
        ⟨1, "v", "2025-01-01", dtimeSecs 10 45 0, "1"⟩).1.sal 1 =
      some ⟨"v", 50, [⟨"2025-01-01", 50, "late"⟩]⟩ := by
  refine ⟨?_, ?_, ?_, by decide, by decide⟩
  · unfold current_session
    split
    · simp_all
    · simp_all
  · unfold is_within_window
    split
    · simp_all
    · split
      · simp_all
      · simp_all
  · intro st uid uname date hany hadm
    have hany2 : ((getDay (ensure_day_structure st.att date) date).sess
        (current_session t)).any (fun e => e.user_id == uid) = false := by
      rw [getDay_ensure_day]
      exact hany
    have hm : handle_message st ⟨uid, uname, date, t, "1"⟩ =
        (⟨appendEntry (ensure_day_structure st.att date) date
            (current_session t)
            ⟨uid, uname, date, t,
              if ADMIN_IDS.contains uid then false
              else !(is_within_window t), current_session t⟩,
          if ADMIN_IDS.contains uid then ensure_user_salary st.sal uid uname
          else if is_within_window t then ensure_user_salary st.sal uid uname
          else add_deduction (ensure_user_salary st.sal uid uname) uid date
            LATE_PENALTY "late"⟩,
         Outcome.marked
           (if ADMIN_IDS.contains uid then false
            else !(is_within_window t))) :=
      dispatch_mark_created
        ⟨ensure_day_structure st.att date, ensure_user_salary st.sal uid uname⟩
        ⟨uid, uname, date, t, "1"⟩ rfl hany2
    rw [hm]
    dsimp only
    rw [if_neg (fun hc => by rw [hadm] at hc; exact Bool.noConfusion hc)]
